import Mathlib

/-!
Verification development for the Notes-manager repository (src/notes.hpp and
its callers).  The repository ships only the class declarations of Tag, Note,
Folder and NoteManager (notes.hpp); the bodies of every method are in a
translation unit that is not part of src/.  Following the specification
(spec.md), which was written for exactly these declarations, the missing
bodies are modelled here from the spec's words.  Strings of the C++ code are
modelled as lists of bytes, time_t values as natural numbers, std::map-based
id indexes as association by the id field inside the entity arenas, and the
on-disk mirror as lists of (isNote, id) entries under the active base path
and the trash base path.
-/

namespace NotesApp

/-- A C++ std::string, modelled as its list of bytes. -/
abbrev Str := List Nat

/-- Modelled from the spec: derived word count helper of Note::updateMetadata
(body missing from src/); counts maximal runs of non-space bytes, the flag
records whether the previous byte belonged to a word. -/
def countWordsAux : Bool → Str → Nat
  | _, [] => 0
  | inw, c :: cs =>
    if c = 32 then countWordsAux false cs
    else (if inw then 0 else 1) + countWordsAux true cs

/-- Modelled from the spec: word count of a content string, recomputed on
every content write (spec.md section 3, invariant 4). -/
def countWords (s : Str) : Nat := countWordsAux false s

/-- Does the pattern occur as a prefix of the text (exact-case byte match)? -/
def matchesAt : Str → Str → Bool
  | [], _ => true
  | _ :: _, [] => false
  | a :: as, b :: bs => a = b && matchesAt as bs

/-- Modelled from the spec: exact-case substring containment used by the
search engine (spec.md section 4.6); the body of NoteManager::searchNotes is
missing from src/. -/
def containsSub (pat text : Str) : Bool :=
  match text with
  | [] => matchesAt pat []
  | _ :: rest => matchesAt pat text || containsSub pat rest

/-- Modelled from the spec: the trivial reversible content cipher (spec.md
section 1); notes.hpp line 158 documents Note::encrypt as a simple XOR
cipher whose body is missing from src/.  XORs each byte with the key byte
at position index mod key length. -/
def xorFrom (key : Str) : Nat → Str → Str
  | _, [] => []
  | i, c :: cs => (c ^^^ key.getD (i % key.length) 0) :: xorFrom key (i + 1) cs

/-- Modelled from the spec: full-content XOR stream; an empty key leaves the
content unchanged. -/
def xorStream (key content : Str) : Str :=
  if key.isEmpty then content else xorFrom key 0 content

/-- A version snapshot (class NoteVersion, notes.hpp lines 490-513):
immutable timestamp plus content string. -/
structure NoteVersion where
  version_date : Nat
  content_snapshot : Str
deriving DecidableEq

/-- A tag (class Tag, notes.hpp lines 39-80): unique id and name. -/
structure Tag where
  id : Nat
  name : Str
deriving DecidableEq

/-- A note (class Note, notes.hpp lines 89-300).  Tag references are stored
by id into the global tag table (spec.md section 9 replaces the shared-ptr
sharing by id references).  The owning folder is stored as the parent field
(spec.md section 9, arena model).  Modelled from the spec: the optional
original parent folder id, set only while trashed (spec.md section 3); the
recording mechanism lives in the missing method bodies. -/
structure Note where
  id : Nat
  title : Str
  content : Str
  creation_date : Nat
  last_modified_date : Nat
  tags : List Nat
  is_in_trash : Bool
  history : List NoteVersion
  is_encrypted : Bool
  word_count : Nat
  char_count : Nat
  parent : Nat
  original_parent : Option Nat
deriving DecidableEq

/-- A folder (class Folder, notes.hpp lines 309-448).  The parent
back-reference is an id (none for the two roots); child collections are
derived from the parent references of the arenas.  Modelled from the spec:
the optional original parent id, set only while trashed. -/
structure Folder where
  id : Nat
  name : Str
  parent : Option Nat
  is_in_trash : Bool
  original_parent : Option Nat
deriving DecidableEq

/-- The manager state (class NoteManager, notes.hpp lines 599-901): the two
trees are held as entity arenas (spec.md section 9), the id index is lookup
by the id field, all_tags is the global tag table, the per-kind counters
model the static next_id members (notes.hpp lines 44, 106, 318), and the two
disk lists model the mirrored (isNote, id) entries under the active and
trash base paths. -/
structure Manager where
  notes : List Note
  folders : List Folder
  all_tags : List Tag
  next_note_id : Nat
  next_folder_id : Nat
  next_tag_id : Nat
  root_id : Nat
  trash_id : Nat
  disk_active : List (Bool × Nat)
  disk_trash : List (Bool × Nat)
deriving DecidableEq

/-- Id-index lookup of a note inside an arena list (all_notes_by_id,
notes.hpp line 605). -/
def findNoteL (l : List Note) (id : Nat) : Option Note :=
  l.find? (fun n => n.id == id)

/-- Id-index lookup of a folder inside an arena list (all_folders_by_id,
notes.hpp line 606). -/
def findFolderL (l : List Folder) (id : Nat) : Option Folder :=
  l.find? (fun f => f.id == id)

/-- NoteManager::findNoteById (notes.hpp line 641): id-index lookup; none
models a NotFoundError outcome. -/
def findNoteById (m : Manager) (id : Nat) : Option Note :=
  findNoteL m.notes id

/-- NoteManager::findFolderById (notes.hpp line 644): id-index lookup. -/
def findFolderById (m : Manager) (id : Nat) : Option Folder :=
  findFolderL m.folders id

/-- NoteManager::findTagByName (notes.hpp line 620). -/
def findTagByName (m : Manager) (name : Str) : Option Tag :=
  m.all_tags.find? (fun t => t.name == name)

/-- Walk the parent chain upward from folder fid and report whether the
folder with id target is met (spec.md section 4.2: cycle detection walks the
parent chain from newParentId); fuelled because the parent map of an
arbitrary state is arbitrary. -/
def reachesAux : Nat → List Folder → Nat → Nat → Bool
  | 0, _, _, _ => false
  | fuel + 1, fs, target, fid =>
    if fid = target then true
    else
      match findFolderL fs fid with
      | none => false
      | some f =>
        match f.parent with
        | none => false
        | some p => reachesAux fuel fs target p

/-- Folder fid lies at or below folder target in the parent chain. -/
def reaches (m : Manager) (target fid : Nat) : Bool :=
  reachesAux (m.folders.length + 1) m.folders target fid

/-- Outcomes of NoteManager::moveFolder (spec.md section 4.2: ok, CycleError
or NotFoundError; a root folder may not be moved). -/
inductive MoveError where
  | notFound
  | cycle
  | rootMove
deriving DecidableEq

/-- Outcomes of NoteManager::restoreItem (spec.md section 4.2). -/
inductive RestoreError where
  | notFound
  | originalParentGone
deriving DecidableEq

/-- Outcomes of NoteManager::revertNoteToVersion (spec.md section 7:
IndexOutOfRangeError for an invalid version index). -/
inductive RevertError where
  | notFound
  | indexOutOfRange
deriving DecidableEq

/-- Modelled from the spec: Note::setContent (declared notes.hpp line 255,
body missing from src/).  Pushes the pre-edit content as a new version
snapshot onto the history before applying the new content (spec.md section
4.4), updates the last-modified timestamp and recomputes the derived
counts (spec.md section 3, invariant 4). -/
def Note.setContent (n : Note) (c : Str) (now : Nat) : Note :=
  { n with
    history := n.history ++ [⟨now, n.content⟩],
    content := c,
    last_modified_date := now,
    word_count := countWords c,
    char_count := c.length }

/-- Modelled from the spec: Note::setTitle (declared notes.hpp line 243,
body missing from src/); updates the last-modified timestamp. -/
def Note.setTitle (n : Note) (t : Str) (now : Nat) : Note :=
  { n with title := t, last_modified_date := now }

/-- Modelled from the spec: Note::encrypt (declared notes.hpp line 161, body
missing from src/; documented there as a simple XOR cipher).  XORs the
content with the key stream and sets the encrypted flag. -/
def Note.encrypt (n : Note) (key : Str) : Note :=
  { n with content := xorStream key n.content, is_encrypted := true }

/-- Modelled from the spec: Note::decrypt (declared notes.hpp line 167, body
missing from src/).  XORs the content with the key stream and clears the
encrypted flag. -/
def Note.decrypt (n : Note) (key : Str) : Note :=
  { n with content := xorStream key n.content, is_encrypted := false }

/-- Modelled from the spec: resolve-or-create of a named tag (spec.md
sections 4.2 and 4.5); returns the id of the existing or fresh tag.  A
fresh tag takes the next tag id (Tag::next_id, notes.hpp line 44). -/
def resolveOrCreateTag (m : Manager) (name : Str) : Manager × Nat :=
  match findTagByName m name with
  | some t => (m, t.id)
  | none =>
    ({ m with
        all_tags := m.all_tags ++ [⟨m.next_tag_id, name⟩],
        next_tag_id := m.next_tag_id + 1 },
      m.next_tag_id)

/-- Modelled from the spec: resolve-or-create each named tag in order
(NoteManager::createNote, spec.md section 4.2), returning the tag ids. -/
def resolveTags (m : Manager) : List Str → Manager × List Nat
  | [] => (m, [])
  | name :: rest =>
    let r := resolveOrCreateTag m name
    let s := resolveTags r.1 rest
    (s.1, r.2 :: s.2)

/-- Modelled from the spec: NoteManager::createFolder (declared notes.hpp
line 657, body missing from src/).  Fails on a sibling name collision
(DuplicateNameError), otherwise attaches a fresh folder under the parent and
mirrors a directory on disk (spec.md sections 4.2 and 4.3). -/
def createFolder (m : Manager) (parentId : Nat) (name : Str) : Bool × Manager :=
  if m.folders.any (fun f => f.parent == some parentId && f.name == name) then
    (false, m)
  else
    (true,
      { m with
        folders := m.folders ++ [⟨m.next_folder_id, name, some parentId, false, none⟩],
        next_folder_id := m.next_folder_id + 1,
        disk_active := m.disk_active ++ [(false, m.next_folder_id)] })

/-- Modelled from the spec: NoteManager::createNote (declared notes.hpp line
707, body missing from src/).  Resolves or creates each named tag, attaches
a fresh note under the parent folder with timestamps set to now and derived
counts computed, and mirrors a file on disk (spec.md sections 4.2, 4.3 and
3).  Returns the fresh note id. -/
def createNote (m : Manager) (parentId : Nat) (title content : Str)
    (tagNames : List Str) (now : Nat) : Nat × Manager :=
  let r := resolveTags m tagNames
  let m1 := r.1
  let n : Note :=
    { id := m1.next_note_id, title := title, content := content,
      creation_date := now, last_modified_date := now, tags := r.2,
      is_in_trash := false, history := [], is_encrypted := false,
      word_count := countWords content, char_count := content.length,
      parent := parentId, original_parent := none }
  (m1.next_note_id,
    { m1 with
      notes := m1.notes ++ [n],
      next_note_id := m1.next_note_id + 1,
      disk_active := m1.disk_active ++ [(true, m1.next_note_id)] })

/-- Modelled from the spec: NoteManager::moveFolder (declared notes.hpp line
672, body missing from src/).  NotFoundError when either id is unknown;
CycleError when the new parent equals the folder or is one of its
descendants, detected by walking the parent chain from the new parent
(spec.md section 4.2); a root folder may not be moved.  On success the
folder is re-parented and the mirrored directory relocated. -/
def moveFolder (m : Manager) (folder_id new_parent_id : Nat) :
    Except MoveError Unit × Manager :=
  match findFolderL m.folders folder_id, findFolderL m.folders new_parent_id with
  | some _, some _ =>
    if reaches m folder_id new_parent_id then
      (Except.error MoveError.cycle, m)
    else if folder_id = m.root_id ∨ folder_id = m.trash_id then
      (Except.error MoveError.rootMove, m)
    else
      (Except.ok (),
        { m with
          folders := m.folders.map fun f =>
            if f.id = folder_id then { f with parent := some new_parent_id } else f })
  | _, _ => (Except.error MoveError.notFound, m)

/-- Modelled from the spec: NoteManager::moveNote (declared notes.hpp line
722, body missing from src/): re-parents the note when both ids resolve
(spec.md section 4.2). -/
def moveNote (m : Manager) (note_id new_folder_id : Nat) : Bool × Manager :=
  match findNoteL m.notes note_id, findFolderL m.folders new_folder_id with
  | some _, some _ =>
    (true,
      { m with
        notes := m.notes.map fun n =>
          if n.id = note_id then { n with parent := new_folder_id } else n })
  | _, _ => (false, m)

/-- Modelled from the spec: NoteManager::renameFolder (declared notes.hpp
line 680, body missing from src/); validates sibling-name uniqueness
(spec.md section 4.2). -/
def renameFolder (m : Manager) (folder_id : Nat) (new_name : Str) : Bool × Manager :=
  match findFolderL m.folders folder_id with
  | none => (false, m)
  | some f =>
    if m.folders.any (fun g => g.id != folder_id && g.parent == f.parent && g.name == new_name) then
      (false, m)
    else
      (true,
        { m with
          folders := m.folders.map fun g =>
            if g.id = folder_id then { g with name := new_name } else g })

/-- Modelled from the spec: NoteManager::renameNote (declared notes.hpp line
730, body missing from src/); titles carry no uniqueness constraint
(spec.md section 4.2). -/
def renameNote (m : Manager) (note_id : Nat) (new_title : Str) (now : Nat) : Bool × Manager :=
  match findNoteL m.notes note_id with
  | none => (false, m)
  | some _ =>
    (true,
      { m with
        notes := m.notes.map fun n =>
          if n.id = note_id then Note.setTitle n new_title now else n })

/-- Modelled from the spec: NoteManager::editNote (declared notes.hpp line
745, body missing from src/): a content-overwriting edit through
Note::setContent followed by the title update (spec.md section 4.4). -/
def editNote (m : Manager) (note_id : Nat) (new_title new_content : Str)
    (now : Nat) : Bool × Manager :=
  match findNoteL m.notes note_id with
  | none => (false, m)
  | some _ =>
    (true,
      { m with
        notes := m.notes.map fun n =>
          if n.id = note_id then Note.setTitle (Note.setContent n new_content now) new_title now
          else n })

/-- Modelled from the spec: NoteManager::revertNoteToVersion (declared
notes.hpp line 754) via Note::revertToVersion (declared notes.hpp line 203),
bodies missing from src/.  An index at or past the history length fails with
IndexOutOfRangeError and changes nothing; a valid index sets the content to
that snapshot and updates the last-modified timestamp (spec.md section 4.4;
the policy chosen for the open question of section 9 is that a revert does
not itself push a version). -/
def revertNoteToVersion (m : Manager) (note_id k now : Nat) :
    Except RevertError Unit × Manager :=
  match findNoteL m.notes note_id with
  | none => (Except.error RevertError.notFound, m)
  | some n =>
    match n.history[k]? with
    | none => (Except.error RevertError.indexOutOfRange, m)
    | some v =>
      (Except.ok (),
        { m with
          notes := m.notes.map fun x =>
            if x.id = note_id then
              { x with
                content := v.content_snapshot,
                last_modified_date := now,
                word_count := countWords v.content_snapshot,
                char_count := v.content_snapshot.length }
            else x })

/-- Which mirrored disk entry belongs to the subtree of the folder with the
given id (notes by their owning folder, folders by their own chain). -/
def diskUnder (m : Manager) (folder_id : Nat) (e : Bool × Nat) : Bool :=
  if e.1 then
    match findNoteL m.notes e.2 with
    | some n => reaches m folder_id n.parent
    | none => false
  else
    reaches m folder_id e.2

/-- Modelled from the spec: NoteManager::deleteNote (declared notes.hpp line
714, body missing from src/).  Non-permanent: records the owning folder as
original parent, re-attaches the note under the trash root, sets the
trashed flag and relocates the mirrored file to the trash path.  Permanent:
removes the note from the arena, the id index and disk (spec.md sections
4.2 and 4.7). -/
def deleteNote (m : Manager) (note_id : Nat) (permanent : Bool) : Bool × Manager :=
  match findNoteL m.notes note_id with
  | none => (false, m)
  | some _ =>
    if permanent then
      (true,
        { m with
          notes := m.notes.filter (fun x => x.id != note_id),
          disk_active := m.disk_active.filter (fun e => e != (true, note_id)),
          disk_trash := m.disk_trash.filter (fun e => e != (true, note_id)) })
    else
      (true,
        { m with
          notes := m.notes.map fun x =>
            if x.id = note_id then
              { x with is_in_trash := true, original_parent := some x.parent,
                       parent := m.trash_id }
            else x,
          disk_active := m.disk_active.filter (fun e => e != (true, note_id)),
          disk_trash := m.disk_trash ++ [(true, note_id)] })

/-- Modelled from the spec: NoteManager::deleteFolder (declared notes.hpp
line 664, body missing from src/).  The roots may not be deleted.
Non-permanent: the folder is re-attached under the trash root and records
its original parent; every descendant folder and note gets the trashed flag
but keeps its relative position (spec.md section 4.2); the mirrored subtree
moves to the trash path.  Permanent: the whole subtree is removed from the
arenas, the id index and disk. -/
def deleteFolder (m : Manager) (folder_id : Nat) (permanent : Bool) : Bool × Manager :=
  if folder_id = m.root_id ∨ folder_id = m.trash_id then (false, m)
  else
    match findFolderL m.folders folder_id with
    | none => (false, m)
    | some _ =>
      if permanent then
        (true,
          { m with
            folders := m.folders.filter (fun x => !(reaches m folder_id x.id)),
            notes := m.notes.filter (fun x => !(reaches m folder_id x.parent)),
            disk_active := m.disk_active.filter (fun e => !(diskUnder m folder_id e)),
            disk_trash := m.disk_trash.filter (fun e => !(diskUnder m folder_id e)) })
      else
        (true,
          { m with
            folders := m.folders.map fun x =>
              if x.id = folder_id then
                { x with parent := some m.trash_id, original_parent := x.parent,
                         is_in_trash := true }
              else if reaches m folder_id x.id then { x with is_in_trash := true }
              else x,
            notes := m.notes.map fun x =>
              if reaches m folder_id x.parent then { x with is_in_trash := true } else x,
            disk_active := m.disk_active.filter (fun e => !(diskUnder m folder_id e)),
            disk_trash := m.disk_trash ++ m.disk_active.filter (fun e => diskUnder m folder_id e) })

/-- Modelled from the spec: NoteManager::restoreItem (declared notes.hpp
line 836, body missing from src/).  Moves a trashed item back under its
recorded original parent; OriginalParentGoneError when that parent no
longer exists, leaving the item in trash (spec.md section 4.2).  A restored
folder brings its subtree back to the active state. -/
def restoreItem (m : Manager) (item_id : Nat) (is_note : Bool) :
    Except RestoreError Unit × Manager :=
  if is_note then
    match findNoteL m.notes item_id with
    | none => (Except.error RestoreError.notFound, m)
    | some n =>
      if n.is_in_trash then
        match n.original_parent with
        | none => (Except.error RestoreError.notFound, m)
        | some p =>
          match findFolderL m.folders p with
          | none => (Except.error RestoreError.originalParentGone, m)
          | some _ =>
            (Except.ok (),
              { m with
                notes := m.notes.map fun x =>
                  if x.id = item_id then
                    { x with parent := p, original_parent := none, is_in_trash := false }
                  else x,
                disk_trash := m.disk_trash.filter (fun e => e != (true, item_id)),
                disk_active := m.disk_active ++ [(true, item_id)] })
      else (Except.error RestoreError.notFound, m)
  else
    match findFolderL m.folders item_id with
    | none => (Except.error RestoreError.notFound, m)
    | some f =>
      if f.is_in_trash then
        match f.original_parent with
        | none => (Except.error RestoreError.notFound, m)
        | some p =>
          match findFolderL m.folders p with
          | none => (Except.error RestoreError.originalParentGone, m)
          | some _ =>
            (Except.ok (),
              { m with
                folders := m.folders.map fun x =>
                  if x.id = item_id then
                    { x with parent := some p, original_parent := none, is_in_trash := false }
                  else if reaches m item_id x.id then { x with is_in_trash := false }
                  else x,
                notes := m.notes.map fun x =>
                  if reaches m item_id x.parent then { x with is_in_trash := false } else x,
                disk_trash := m.disk_trash.filter
                  (fun e => !(diskUnder m item_id e) && e != (false, item_id)),
                disk_active := m.disk_active
                  ++ m.disk_trash.filter (fun e => diskUnder m item_id e)
                  ++ [(false, item_id)] })
      else (Except.error RestoreError.notFound, m)

/-- Modelled from the spec: NoteManager::emptyTrash (declared notes.hpp line
841, body missing from src/).  Permanently purges every item currently
under the trash root from the arenas, the id index and the trash directory
tree (spec.md sections 4.2 and 4.7). -/
def emptyTrash (m : Manager) : Manager :=
  { m with
    notes := m.notes.filter (fun n => !(reaches m m.trash_id n.parent)),
    folders := m.folders.filter (fun f => f.id == m.trash_id || !(reaches m m.trash_id f.id)),
    disk_trash := [] }

/-- Modelled from the spec: NoteManager::createTag (declared notes.hpp line
763, body missing from src/); tag names are unique in the table (spec.md
section 3, invariant 5). -/
def createTag (m : Manager) (name : Str) : Bool × Manager :=
  match findTagByName m name with
  | some _ => (false, m)
  | none =>
    (true,
      { m with
        all_tags := m.all_tags ++ [⟨m.next_tag_id, name⟩],
        next_tag_id := m.next_tag_id + 1 })

/-- Does the tag id resolve, through the tag table, to a tag of the given
name? -/
def idHasName (m : Manager) (tid : Nat) (name : Str) : Bool :=
  m.all_tags.any (fun t => t.id == tid && t.name == name)

/-- Modelled from the spec: NoteManager::addTagToNote (declared notes.hpp
line 783, body missing from src/): resolve-or-create, then attach the
reference if not yet present (spec.md section 4.5). -/
def addTagToNote (m : Manager) (note_id : Nat) (name : Str) : Bool × Manager :=
  match findNoteL m.notes note_id with
  | none => (false, m)
  | some _ =>
    let r := resolveOrCreateTag m name
    (true,
      { r.1 with
        notes := r.1.notes.map fun x =>
          if x.id = note_id then
            { x with tags := if x.tags.contains r.2 then x.tags else x.tags ++ [r.2] }
          else x })

/-- Modelled from the spec: NoteManager::removeTagFromNote (declared
notes.hpp line 791, body missing from src/): detaches the reference
(spec.md section 4.5). -/
def removeTagFromNote (m : Manager) (note_id : Nat) (name : Str) : Bool × Manager :=
  match findNoteL m.notes note_id with
  | none => (false, m)
  | some _ =>
    (true,
      { m with
        notes := m.notes.map fun x =>
          if x.id = note_id then
            { x with tags := x.tags.filter (fun tid => !(idHasName m tid name)) }
          else x })

/-- Modelled from the spec: NoteManager::deleteTag (declared notes.hpp line
770, body missing from src/): removes the tag from the table and purges it
from every referencing note in the same operation (spec.md section 3,
invariant 5). -/
def deleteTag (m : Manager) (name : Str) : Bool × Manager :=
  match findTagByName m name with
  | none => (false, m)
  | some _ =>
    (true,
      { m with
        all_tags := m.all_tags.filter (fun t => !(t.name == name)),
        notes := m.notes.map fun x =>
          { x with tags := x.tags.filter (fun tid => !(idHasName m tid name)) } })

/-- Manager-level encryption of one note through Note::encrypt. -/
def encryptNoteOp (m : Manager) (note_id : Nat) (key : Str) : Manager :=
  { m with
    notes := m.notes.map fun x => if x.id = note_id then Note.encrypt x key else x }

/-- Manager-level decryption of one note through Note::decrypt. -/
def decryptNoteOp (m : Manager) (note_id : Nat) (key : Str) : Manager :=
  { m with
    notes := m.notes.map fun x => if x.id = note_id then Note.decrypt x key else x }

/-- NoteManager::SearchCriteria (notes.hpp lines 813-819): keyword, required
tag names, inclusive date range (zero meaning unbounded) and the trash
flag. -/
structure SearchCriteria where
  keyword : Str
  tags : List Str
  start_date : Nat
  end_date : Nat
  search_in_trash : Bool
deriving DecidableEq

/-- Does the note carry a tag of the given name (through the tag table)? -/
def noteHasTagName (m : Manager) (n : Note) (name : Str) : Bool :=
  n.tags.any (fun tid => idHasName m tid name)

/-- Modelled from the spec: the search predicate of NoteManager::searchNotes
(declared notes.hpp line 826, body missing from src/): exact-case substring
containment on title or content, AND semantics over the required tags, and
the inclusive date range on the last-modified timestamp with zero meaning
unbounded (spec.md section 4.6). -/
def matchesCriteria (m : Manager) (c : SearchCriteria) (n : Note) : Bool :=
  (containsSub c.keyword n.title || containsSub c.keyword n.content)
  && c.tags.all (fun tn => noteHasTagName m n tn)
  && (c.start_date == 0 || decide (c.start_date ≤ n.last_modified_date))
  && (c.end_date == 0 || decide (n.last_modified_date ≤ c.end_date))

/-- Modelled from the spec: the tree selection of the search (spec.md
section 4.6): with the flag clear only the active tree is scanned; with the
flag set the scan covers both trees. -/
def inSelectedTrees (c : SearchCriteria) (n : Note) : Bool :=
  !n.is_in_trash || c.search_in_trash

/-- Modelled from the spec: NoteManager::searchNotes (declared notes.hpp
line 826, body missing from src/): a full linear scan of the selected
tree(s) filtered by the criteria predicate (spec.md section 4.6). -/
def searchNotes (m : Manager) (c : SearchCriteria) : List Note :=
  m.notes.filter (fun n => inSelectedTrees c n && matchesCriteria m c n)

/-- One caller-visible operation of the Tree Store, Version, Tag and Search
interfaces (spec.md section 4); timestamps are passed in as the
environment's clock where an operation reads the current time. -/
inductive Op where
  | createFolder (parentId : Nat) (name : Str)
  | createNote (parentId : Nat) (title content : Str) (tagNames : List Str) (now : Nat)
  | createTag (name : Str)
  | moveFolder (folderId newParentId : Nat)
  | moveNote (noteId newFolderId : Nat)
  | renameFolder (folderId : Nat) (newName : Str)
  | renameNote (noteId : Nat) (newTitle : Str) (now : Nat)
  | editNote (noteId : Nat) (newTitle newContent : Str) (now : Nat)
  | revertNote (noteId : Nat) (k now : Nat)
  | deleteNote (noteId : Nat) (permanent : Bool)
  | deleteFolder (folderId : Nat) (permanent : Bool)
  | restoreItem (itemId : Nat) (isNote : Bool)
  | emptyTrash
  | addTagToNote (noteId : Nat) (tagName : Str)
  | removeTagFromNote (noteId : Nat) (tagName : Str)
  | deleteTag (name : Str)
  | encryptNote (noteId : Nat) (key : Str)
  | decryptNote (noteId : Nat) (key : Str)
deriving DecidableEq

/-- The state transition of one operation (outputs discarded). -/
def step (m : Manager) : Op → Manager
  | .createFolder p name => (createFolder m p name).2
  | .createNote p t c tns now => (createNote m p t c tns now).2
  | .createTag name => (createTag m name).2
  | .moveFolder f p => (moveFolder m f p).2
  | .moveNote n f => (moveNote m n f).2
  | .renameFolder f nm => (renameFolder m f nm).2
  | .renameNote n t now => (renameNote m n t now).2
  | .editNote n t c now => (editNote m n t c now).2
  | .revertNote n k now => (revertNoteToVersion m n k now).2
  | .deleteNote n p => (deleteNote m n p).2
  | .deleteFolder f p => (deleteFolder m f p).2
  | .restoreItem i b => (restoreItem m i b).2
  | .emptyTrash => emptyTrash m
  | .addTagToNote n tn => (addTagToNote m n tn).2
  | .removeTagFromNote n tn => (removeTagFromNote m n tn).2
  | .deleteTag tn => (deleteTag m tn).2
  | .encryptNote n k => encryptNoteOp m n k
  | .decryptNote n k => decryptNoteOp m n k

/-- Run a sequence of operations. -/
def run (m : Manager) : List Op → Manager
  | [] => m
  | op :: ops => run (step m op) ops

/-- The fresh NoteManager state (constructor declared notes.hpp line 648,
body missing from src/; modelled from the spec): an active root folder and
a trash root folder, empty arenas, empty tag table and empty mirrors. -/
def initManager : Manager :=
  { notes := [],
    folders := [⟨0, [], none, false, none⟩, ⟨1, [], none, false, none⟩],
    all_tags := [],
    next_note_id := 1,
    next_folder_id := 2,
    next_tag_id := 1,
    root_id := 0,
    trash_id := 1,
    disk_active := [],
    disk_trash := [] }

/-- The parent information the chain walk reads for one folder id: whether
the folder exists and, if so, its parent reference. -/
def parentInfoL (fs : List Folder) (fid : Nat) : Option (Option Nat) :=
  (findFolderL fs fid).map Folder.parent

/-- The block of ids a counter observer hands out during one operation:
contiguous from the pre-state counter to the post-state counter.  Every id
assignment of the allocator (spec.md section 4.1) takes the current counter
value and bumps it by one, so this is exactly the list of ids assigned by
the operation for that entity kind. -/
def ctrTrace (f : Manager → Nat) (m : Manager) : List Op → List Nat
  | [] => []
  | op :: ops =>
    List.range' (f m) (f (step m op) - f m) ++ ctrTrace f (step m op) ops

/-- Is the operation a note-creating operation (the only kind that may
advance the note counter)? -/
def isCreateNoteOp : Op → Bool
  | .createNote _ _ _ _ _ => true
  | _ => false

/-- Is the operation a folder-creating operation (the only kind that may
advance the folder counter)? -/
def isCreateFolderOp : Op → Bool
  | .createFolder _ _ => true
  | _ => false

/-- Is the operation one that may create tags (explicit tag creation, or
the resolve-or-create steps of note creation and tagging)? -/
def isTagCreatingOp : Op → Bool
  | .createTag _ => true
  | .createNote _ _ _ _ _ => true
  | .addTagToNote _ _ => true
  | _ => false

/-- Tag names are unique across the tag table (spec.md section 3,
invariant 5). -/
def TagNamesUnique (T : List Tag) : Prop :=
  T.Pairwise (fun a b => a.name ≠ b.name)

/-- Every tag reference of every note resolves to a live tag-table entry
(spec.md section 3, invariant 5: dangling references are forbidden). -/
def TagRefsLive (T : List Tag) (N : List Note) : Prop :=
  ∀ n ∈ N, ∀ i ∈ n.tags, ∃ t ∈ T, t.id = i

/-- The tag-subsystem invariant of the manager state. -/
def TagWF (m : Manager) : Prop :=
  TagNamesUnique m.all_tags ∧ TagRefsLive m.all_tags m.notes

/-- A concrete active note used to instantiate the theorems. -/
def sampleNote : Note :=
  ⟨10, [80], [100, 111], 5, 5, [], false, [], false, 1, 2, 2, none⟩

/-- A concrete active note with one version snapshot in its history. -/
def sampleHistNote : Note :=
  ⟨11, [81], [50], 5, 6, [], false, [⟨6, [49]⟩], false, 1, 1, 2, none⟩

/-- A concrete manager state: root and trash roots, a folder A (id 2) under
the root holding both sample notes, and a folder B (id 3) under A. -/
def sampleManager : Manager :=
  { notes := [sampleNote, sampleHistNote],
    folders := [⟨0, [], none, false, none⟩, ⟨1, [], none, false, none⟩,
                ⟨2, [65], some 0, false, none⟩, ⟨3, [66], some 2, false, none⟩],
    all_tags := [],
    next_note_id := 12, next_folder_id := 4, next_tag_id := 1,
    root_id := 0, trash_id := 1,
    disk_active := [(false, 2), (false, 3), (true, 10), (true, 11)],
    disk_trash := [] }

/-- A concrete manager state with trashed items: note 20 (original parent
folder 2, still present), note 21 (original parent 99, gone) and folder 4
(original parent 2), all under the trash root. -/
def sampleTrashedManager : Manager :=
  { notes := [⟨20, [80], [100], 5, 5, [], true, [], false, 1, 1, 1, some 2⟩,
              ⟨21, [81], [101], 5, 5, [], true, [], false, 1, 1, 1, some 99⟩],
    folders := [⟨0, [], none, false, none⟩, ⟨1, [], none, false, none⟩,
                ⟨2, [65], some 0, false, none⟩, ⟨4, [67], some 1, true, some 2⟩],
    all_tags := [],
    next_note_id := 22, next_folder_id := 5, next_tag_id := 1,
    root_id := 0, trash_id := 1,
    disk_active := [(false, 2)],
    disk_trash := [(true, 20), (true, 21), (false, 4)] }

/-- A concrete manager state with one tag (id 7, name the byte string 85)
referenced by note 30. -/
def sampleTagManager : Manager :=
  { notes := [⟨30, [80], [100], 5, 5, [7], false, [], false, 1, 1, 2, none⟩],
    folders := [⟨0, [], none, false, none⟩, ⟨1, [], none, false, none⟩,
                ⟨2, [65], some 0, false, none⟩],
    all_tags := [⟨7, [85]⟩],
    next_note_id := 31, next_folder_id := 3, next_tag_id := 8,
    root_id := 0, trash_id := 1,
    disk_active := [(false, 2), (true, 30)],
    disk_trash := [] }

section Helpers

/-- Id-index lookup commutes with an id-preserving rewrite of the note
arena. -/
theorem findNoteL_map (l : List Note) (g : Note → Note) (id : Nat)
    (hg : ∀ n, (g n).id = n.id) :
    findNoteL (l.map g) id = (findNoteL l id).map g := by
  unfold findNoteL
  rw [List.find?_map]
  have hp : ((fun n : Note => n.id == id) ∘ g) = fun n : Note => n.id == id := by
    funext n
    simp [Function.comp, hg]
  rw [hp]

/-- Id-index lookup commutes with an id-preserving rewrite of the folder
arena. -/
theorem findFolderL_map (l : List Folder) (g : Folder → Folder) (id : Nat)
    (hg : ∀ f, (g f).id = f.id) :
    findFolderL (l.map g) id = (findFolderL l id).map g := by
  unfold findFolderL
  rw [List.find?_map]
  have hp : ((fun f : Folder => f.id == id) ∘ g) = fun f : Folder => f.id == id := by
    funext f
    simp [Function.comp, hg]
  rw [hp]

/-- A successful note lookup returns an arena member carrying the id. -/
theorem findNoteL_spec (l : List Note) (id : Nat) (n : Note)
    (h : findNoteL l id = some n) : n ∈ l ∧ n.id = id := by
  unfold findNoteL at h
  refine ⟨List.mem_of_find?_eq_some h, ?_⟩
  have := List.find?_some h
  simpa using this

/-- A successful folder lookup returns an arena member carrying the id. -/
theorem findFolderL_spec (l : List Folder) (id : Nat) (f : Folder)
    (h : findFolderL l id = some f) : f ∈ l ∧ f.id = id := by
  unfold findFolderL at h
  refine ⟨List.mem_of_find?_eq_some h, ?_⟩
  have := List.find?_some h
  simpa using this

/-- In a list whose keys are pairwise distinct, two members with the same
key coincide. -/
theorem pairwise_key_inj {α : Type} (key : α → Nat) :
    ∀ (l : List α), l.Pairwise (fun a b => key a ≠ key b) →
      ∀ x ∈ l, ∀ y ∈ l, key x = key y → x = y := by
  intro l hl
  induction hl with
  | nil => intro x hx; cases hx
  | cons hhead _ ih =>
    intro x hx y hy hxy
    rcases List.mem_cons.mp hx with rfl | hx'
    · rcases List.mem_cons.mp hy with rfl | hy'
      · rfl
      · exact absurd hxy (hhead y hy')
    · rcases List.mem_cons.mp hy with rfl | hy'
      · exact absurd hxy.symm (hhead x hx')
      · exact ih x hx' y hy' hxy

end Helpers

/-- XORing twice with the same key stream restores the bytes. -/
theorem xorFrom_invol (key : Str) :
    ∀ (i : Nat) (cs : Str), xorFrom key i (xorFrom key i cs) = cs := by
  intro i cs
  induction cs generalizing i with
  | nil => rfl
  | cons c cs ih => simp [xorFrom, ih, Nat.xor_cancel_right]

/-- The content cipher is an involution. -/
theorem xorStream_invol (key c : Str) : xorStream key (xorStream key c) = c := by
  by_cases h : key.isEmpty <;> simp [xorStream, h, xorFrom_invol]

/-- C10: for every note and every key string, encrypt(key) followed by
decrypt(key) restores the note's content (the XOR cipher is its own inverse
under the same key), the encrypted flag is true after encrypt and false
after decrypt. -/
theorem encrypt_decrypt_roundtrip (n : Note) (key : Str) :
    (Note.decrypt (Note.encrypt n key) key).content = n.content ∧
    (Note.encrypt n key).is_encrypted = true ∧
    (Note.decrypt (Note.encrypt n key) key).is_encrypted = false := by
  refine ⟨?_, rfl, rfl⟩
  simp [Note.encrypt, Note.decrypt, xorStream_invol]

/-- C3: every content-overwriting edit appends the pre-edit content as a new
version snapshot to the history before the new content is applied, so after
the edit the last history entry holds the content the note had immediately
before the edit. -/
theorem editNote_snapshot (m : Manager) (note_id : Nat) (new_title new_content : Str)
    (now : Nat) (n : Note) (h : findNoteById m note_id = some n) :
    ∃ n', findNoteById (editNote m note_id new_title new_content now).2 note_id = some n' ∧
      n'.history = n.history ++ [⟨now, n.content⟩] ∧
      n'.history.getLast? = some ⟨now, n.content⟩ ∧
      n'.content = new_content := by
  unfold findNoteById at h ⊢
  have hid : n.id = note_id := (findNoteL_spec _ _ _ h).2
  have hg : ∀ x : Note,
      ((fun x : Note =>
        if x.id = note_id then Note.setTitle (Note.setContent x new_content now) new_title now
        else x) x).id = x.id := by
    intro x
    by_cases hx : x.id = note_id <;> simp [hx, Note.setTitle, Note.setContent]
  unfold editNote
  rw [h]
  dsimp only
  refine ⟨Note.setTitle (Note.setContent n new_content now) new_title now, ?_, ?_, ?_, ?_⟩
  · rw [findNoteL_map _ _ _ hg, h]
    simp [hid]
  · simp [Note.setTitle, Note.setContent]
  · simp [Note.setTitle, Note.setContent]
  · simp [Note.setTitle, Note.setContent]

/-- C4: reverting a note to version index k succeeds exactly when k lies
below the history length, setting the content to the snapshot at index k;
an index at or past the history length fails with IndexOutOfRangeError and
leaves the state (in particular the content) unchanged. -/
theorem revertNote_spec (m : Manager) (note_id k now : Nat) (n : Note)
    (h : findNoteById m note_id = some n) :
    (∀ hk : k < n.history.length,
       (revertNoteToVersion m note_id k now).1 = Except.ok () ∧
       ∃ n', findNoteById (revertNoteToVersion m note_id k now).2 note_id = some n' ∧
         n'.content = (n.history.get ⟨k, hk⟩).content_snapshot) ∧
    (n.history.length ≤ k →
       revertNoteToVersion m note_id k now = (Except.error RevertError.indexOutOfRange, m)) := by
  unfold findNoteById at h
  have hid : n.id = note_id := (findNoteL_spec _ _ _ h).2
  constructor
  · intro hk
    have hget : n.history[k]? = some (n.history.get ⟨k, hk⟩) := List.getElem?_eq_getElem hk
    have hg : ∀ x : Note,
        ((fun x : Note =>
          if x.id = note_id then
            { x with content := (n.history.get ⟨k, hk⟩).content_snapshot,
                     last_modified_date := now,
                     word_count := countWords (n.history.get ⟨k, hk⟩).content_snapshot,
                     char_count := (n.history.get ⟨k, hk⟩).content_snapshot.length }
          else x) x).id = x.id := by
      intro x
      by_cases hx : x.id = note_id <;> simp [hx]
    constructor
    · unfold revertNoteToVersion
      rw [h]
      dsimp only
      rw [hget]
    · unfold revertNoteToVersion findNoteById
      rw [h]
      dsimp only
      rw [hget]
      dsimp only
      refine ⟨{ n with content := (n.history.get ⟨k, hk⟩).content_snapshot,
                       last_modified_date := now,
                       word_count := countWords (n.history.get ⟨k, hk⟩).content_snapshot,
                       char_count := (n.history.get ⟨k, hk⟩).content_snapshot.length }, ?_, ?_⟩
      · rw [findNoteL_map _ _ _ hg, h]
        simp [hid]
      · simp
  · intro hk
    have hget : n.history[k]? = none := List.getElem?_eq_none hk
    unfold revertNoteToVersion
    rw [h]
    dsimp only
    rw [hget]

/-- C1: for every folder F and candidate new parent P that is F itself or a
descendant of F (the parent chain from P meets F), moveFolder(F, P) fails
with CycleError and returns the manager state untouched, so the folder
tree, the Id Index and the on-disk mirror are exactly as before the call. -/
theorem moveFolder_cycle_unchanged (m : Manager) (folder_id new_parent_id : Nat)
    (hF : (findFolderById m folder_id).isSome = true)
    (hP : (findFolderById m new_parent_id).isSome = true)
    (hdesc : reaches m folder_id new_parent_id = true) :
    moveFolder m folder_id new_parent_id = (Except.error MoveError.cycle, m) := by
  obtain ⟨f, hf⟩ := Option.isSome_iff_exists.mp hF
  obtain ⟨g, hg⟩ := Option.isSome_iff_exists.mp hP
  unfold findFolderById at hf hg
  unfold moveFolder
  rw [hf, hg]
  simp [hdesc]

/-- Witness for C3 at a concrete state: editing note 10 of the sample
manager appends its pre-edit content to the history. -/
theorem editNote_snapshot_witness :
    ∃ n', findNoteById (editNote sampleManager 10 [81] [99] 9).2 10 = some n' ∧
      n'.history = sampleNote.history ++ [⟨9, sampleNote.content⟩] ∧
      n'.history.getLast? = some ⟨9, sampleNote.content⟩ ∧
      n'.content = [99] :=
  editNote_snapshot sampleManager 10 [81] [99] 9 sampleNote rfl

/-- Witness for C4 at a concrete state: reverting note 11 to version 0
succeeds with the snapshot content, reverting it to version 5 fails with
IndexOutOfRangeError and changes nothing. -/
theorem revertNote_spec_witness :
    ((revertNoteToVersion sampleManager 11 0 9).1 = Except.ok () ∧
      ∃ n', findNoteById (revertNoteToVersion sampleManager 11 0 9).2 11 = some n' ∧
        n'.content = (sampleHistNote.history.get ⟨0, by decide⟩).content_snapshot) ∧
    revertNoteToVersion sampleManager 11 5 9 =
      (Except.error RevertError.indexOutOfRange, sampleManager) :=
  ⟨(revertNote_spec sampleManager 11 0 9 sampleHistNote rfl).1 (by decide),
   (revertNote_spec sampleManager 11 5 9 sampleHistNote rfl).2 (by decide)⟩

/-- Witness for C1 at a concrete state: folder 3 is a descendant of folder
2, and moving 2 under 3 fails with CycleError leaving the state intact. -/
theorem moveFolder_cycle_unchanged_witness :
    (findFolderById sampleManager 2).isSome = true ∧
    (findFolderById sampleManager 3).isSome = true ∧
    reaches sampleManager 2 3 = true ∧
    moveFolder sampleManager 2 3 = (Except.error MoveError.cycle, sampleManager) :=
  ⟨rfl, rfl, rfl, moveFolder_cycle_unchanged sampleManager 2 3 rfl rfl rfl⟩

/-- C8: the search returns exactly the notes of the selected tree(s) whose
title or content contains the keyword as an exact-case substring, that
carry every required tag, and whose last-modified timestamp lies within the
inclusive date range (a zero bound meaning unbounded); the criteria's tree
flag selects the scanned trees: the active tree when clear, both trees when
set. -/
theorem searchNotes_spec (m : Manager) (c : SearchCriteria) (n : Note) :
    n ∈ searchNotes m c ↔
      n ∈ m.notes ∧
      (n.is_in_trash = false ∨ c.search_in_trash = true) ∧
      (containsSub c.keyword n.title = true ∨ containsSub c.keyword n.content = true) ∧
      (∀ tn ∈ c.tags, noteHasTagName m n tn = true) ∧
      (c.start_date = 0 ∨ c.start_date ≤ n.last_modified_date) ∧
      (c.end_date = 0 ∨ n.last_modified_date ≤ c.end_date) := by
  unfold searchNotes inSelectedTrees matchesCriteria
  simp [List.mem_filter, List.all_eq_true, Bool.or_eq_true, Bool.and_eq_true,
        Bool.not_eq_true', beq_iff_eq, decide_eq_true_eq, and_assoc]

/-- C5: restoring a trashed item (note or folder) whose recorded original
parent still exists succeeds and re-attaches the item under that parent,
leaving the trash state behind; when the recorded original parent no longer
exists the call fails with OriginalParentGoneError and the whole state (in
particular the item, still in trash) is unchanged. -/
theorem restoreItem_spec (m : Manager) (item_id p : Nat) :
    (∀ n, findNoteById m item_id = some n → n.is_in_trash = true →
       n.original_parent = some p →
       (((findFolderById m p).isSome = true →
          (restoreItem m item_id true).1 = Except.ok () ∧
          findNoteById (restoreItem m item_id true).2 item_id =
            some { n with parent := p, original_parent := none, is_in_trash := false }) ∧
        (findFolderById m p = none →
          restoreItem m item_id true = (Except.error RestoreError.originalParentGone, m)))) ∧
    (∀ f, findFolderById m item_id = some f → f.is_in_trash = true →
       f.original_parent = some p →
       (((findFolderById m p).isSome = true →
          (restoreItem m item_id false).1 = Except.ok () ∧
          findFolderById (restoreItem m item_id false).2 item_id =
            some { f with parent := some p, original_parent := none, is_in_trash := false }) ∧
        (findFolderById m p = none →
          restoreItem m item_id false = (Except.error RestoreError.originalParentGone, m)))) := by
  constructor
  · intro n hf htrash horig
    unfold findNoteById at hf
    have hid : n.id = item_id := (findNoteL_spec _ _ _ hf).2
    have hg : ∀ x : Note,
        ((fun x : Note =>
          if x.id = item_id then
            { x with parent := p, original_parent := none, is_in_trash := false }
          else x) x).id = x.id := by
      intro x
      by_cases hx : x.id = item_id <;> simp [hx]
    constructor
    · intro hps
      obtain ⟨q, hq⟩ := Option.isSome_iff_exists.mp hps
      unfold findFolderById at hq
      constructor
      · unfold restoreItem
        rw [hf]
        simp only [if_true]
        rw [htrash]
        simp only [if_true]
        rw [horig]
        simp only []
        rw [hq]
      · unfold restoreItem findNoteById
        rw [hf]
        simp only [if_true]
        rw [htrash]
        simp only [if_true]
        rw [horig]
        simp only []
        rw [hq]
        simp only []
        rw [findNoteL_map _ _ _ hg, hf]
        simp [hid]
    · intro hpn
      unfold findFolderById at hpn
      unfold restoreItem
      rw [hf]
      simp only [if_true]
      rw [htrash]
      simp only [if_true]
      rw [horig]
      simp only []
      rw [hpn]
  · intro f hf htrash horig
    unfold findFolderById at hf
    have hid : f.id = item_id := (findFolderL_spec _ _ _ hf).2
    have hg : ∀ x : Folder,
        ((fun x : Folder =>
          if x.id = item_id then
            { x with parent := some p, original_parent := none, is_in_trash := false }
          else if reaches m item_id x.id then { x with is_in_trash := false }
          else x) x).id = x.id := by
      intro x
      by_cases hx : x.id = item_id
      · simp [hx]
      · simp only [hx, if_false]
        split <;> simp
    constructor
    · intro hps
      obtain ⟨q, hq⟩ := Option.isSome_iff_exists.mp hps
      unfold findFolderById at hq
      constructor
      · unfold restoreItem
        simp only [Bool.false_eq_true, if_false]
        rw [hf]
        simp only []
        rw [htrash]
        simp only [if_true]
        rw [horig]
        simp only []
        rw [hq]
      · unfold restoreItem findFolderById
        simp only [Bool.false_eq_true, if_false]
        rw [hf]
        simp only []
        rw [htrash]
        simp only [if_true]
        rw [horig]
        simp only []
        rw [hq]
        simp only []
        rw [findFolderL_map _ _ _ hg, hf]
        simp [hid]
    · intro hpn
      unfold findFolderById at hpn
      unfold restoreItem
      simp only [Bool.false_eq_true, if_false]
      rw [hf]
      simp only []
      rw [htrash]
      simp only [if_true]
      rw [horig]
      simp only []
      rw [hpn]

/-- Witness for C5 at a concrete state: trashed note 20 restores under its
recorded parent 2; trashed note 21, whose recorded parent 99 is gone, fails
with OriginalParentGoneError leaving the state unchanged; trashed folder 4
restores successfully. -/
theorem restoreItem_spec_witness :
    ((restoreItem sampleTrashedManager 20 true).1 = Except.ok () ∧
      findNoteById (restoreItem sampleTrashedManager 20 true).2 20 =
        some ⟨20, [80], [100], 5, 5, [], false, [], false, 1, 1, 2, none⟩) ∧
    restoreItem sampleTrashedManager 21 true =
      (Except.error RestoreError.originalParentGone, sampleTrashedManager) ∧
    (restoreItem sampleTrashedManager 4 false).1 = Except.ok () :=
  ⟨((restoreItem_spec sampleTrashedManager 20 2).1 _ rfl rfl rfl).1 rfl,
   ((restoreItem_spec sampleTrashedManager 21 99).1 _ rfl rfl rfl).2 rfl,
   ((((restoreItem_spec sampleTrashedManager 4 2).2 _ rfl rfl rfl).1 rfl)).1⟩

/-- C7: after emptyTrash every id reachable under the trash root before the
call (a note whose owning chain meets the trash root, or a folder below the
trash root) is gone from the Id Index, so a subsequent lookup by such an id
reports NotFoundError, and its entry is gone from the mirrored trash
directory tree. -/
theorem emptyTrash_spec (m : Manager) (i : Nat)
    (hN : m.notes.Pairwise (fun a b => a.id ≠ b.id))
    (hF : m.folders.Pairwise (fun a b => a.id ≠ b.id)) :
    (∀ n ∈ m.notes, n.id = i → reaches m m.trash_id n.parent = true →
       findNoteById (emptyTrash m) i = none ∧
       ∀ b, (b, i) ∉ (emptyTrash m).disk_trash) ∧
    (∀ f ∈ m.folders, f.id = i → i ≠ m.trash_id → reaches m m.trash_id f.id = true →
       findFolderById (emptyTrash m) i = none ∧
       ∀ b, (b, i) ∉ (emptyTrash m).disk_trash) := by
  constructor
  · intro n hmem hni hr
    refine ⟨?_, ?_⟩
    · show findNoteL ((emptyTrash m).notes) i = none
      have hnotes : (emptyTrash m).notes
          = m.notes.filter (fun x => !(reaches m m.trash_id x.parent)) := rfl
      rw [hnotes]
      unfold findNoteL
      rw [List.find?_eq_none]
      intro x hx hbx
      have hx' := List.mem_filter.mp hx
      have hxid : x.id = i := by simpa using hbx
      have hxn : x = n :=
        pairwise_key_inj (fun y : Note => y.id) m.notes hN x hx'.1 n hmem (by simp only []; rw [hxid, hni])
      have : reaches m m.trash_id x.parent = false := by
        simpa using hx'.2
      rw [hxn] at this
      rw [this] at hr
      cases hr
    · intro b
      show (b, i) ∉ ([] : List (Bool × Nat))
      simp
  · intro f hmem hfi hit hr
    refine ⟨?_, ?_⟩
    · show findFolderL ((emptyTrash m).folders) i = none
      have hfolders : (emptyTrash m).folders
          = m.folders.filter (fun x => x.id == m.trash_id || !(reaches m m.trash_id x.id)) := rfl
      rw [hfolders]
      unfold findFolderL
      rw [List.find?_eq_none]
      intro x hx hbx
      have hx' := List.mem_filter.mp hx
      have hxid : x.id = i := by simpa using hbx
      have hxf : x = f :=
        pairwise_key_inj (fun y : Folder => y.id) m.folders hF x hx'.1 f hmem (by simp only []; rw [hxid, hfi])
      have hpred := hx'.2
      rw [Bool.or_eq_true] at hpred
      rcases hpred with htr | hnr
      · have : x.id = m.trash_id := by simpa using htr
        rw [hxid] at this
        exact hit this
      · have : reaches m m.trash_id x.id = false := by simpa using hnr
        rw [hxf, hfi] at this
        rw [hfi] at hr
        rw [this] at hr
        cases hr
    · intro b
      show (b, i) ∉ ([] : List (Bool × Nat))
      simp

/-- The chain walk reads only existence and parent references of folders,
so two arenas agreeing on those (away from the target, where the walk
stops) make the walk agree. -/
theorem reachesAux_congr (fs1 fs2 : List Folder) (target : Nat)
    (h : ∀ y, y ≠ target → parentInfoL fs1 y = parentInfoL fs2 y) :
    ∀ (fuel fid : Nat), reachesAux fuel fs1 target fid = reachesAux fuel fs2 target fid := by
  intro fuel
  induction fuel with
  | zero => intro fid; rfl
  | succ fuel ih =>
    intro fid
    by_cases hf : fid = target
    · simp [reachesAux, hf]
    · have hp := h fid hf
      unfold parentInfoL at hp
      unfold reachesAux
      rw [if_neg hf, if_neg hf]
      cases h1 : findFolderL fs1 fid with
      | none =>
        cases h2 : findFolderL fs2 fid with
        | none => rfl
        | some f2 => rw [h1, h2] at hp; cases hp
      | some f1 =>
        cases h2 : findFolderL fs2 fid with
        | none => rw [h1, h2] at hp; cases hp
        | some f2 =>
          rw [h1, h2] at hp
          have hpar : f1.parent = f2.parent := by simpa using hp
          dsimp only
          rw [hpar]
          cases hq : f2.parent with
          | none => rfl
          | some q => exact ih q

/-- An id-preserving arena rewrite that keeps every parent reference away
from the target does not change what the chain walk reaches. -/
theorem reaches_eq_of_map (m m' : Manager) (g : Folder → Folder) (target : Nat)
    (hm' : m'.folders = m.folders.map g)
    (hgid : ∀ f, (g f).id = f.id)
    (hgp : ∀ f, f.id ≠ target → (g f).parent = f.parent) :
    ∀ fid, reaches m' target fid = reaches m target fid := by
  intro fid
  unfold reaches
  rw [hm', List.length_map]
  apply reachesAux_congr
  intro y hy
  unfold parentInfoL
  rw [findFolderL_map _ _ _ hgid]
  cases h1 : findFolderL m.folders y with
  | none => rfl
  | some f =>
    have hfid : f.id = y := (findFolderL_spec _ _ _ h1).2
    simp [hgp f (by rw [hfid]; exact hy)]

/-- Restoring a note's parent and clearing its trash marks undoes the
trashing updates when the note was active before. -/
theorem note_restore_cancel (a : Note) (pid : Nat) (ha : a.original_parent = none)
    (hb : a.is_in_trash = false) (hp : a.parent = pid) :
    ({ a with parent := pid, original_parent := none, is_in_trash := false } : Note) = a := by
  cases a
  simp_all

/-- Clearing an unset trash flag is the identity on notes. -/
theorem note_flag_cancel (a : Note) (hb : a.is_in_trash = false) :
    ({ a with is_in_trash := false } : Note) = a := by
  cases a
  simp_all

/-- Restoring a folder's parent and clearing its trash marks undoes the
trashing updates when the folder was active before. -/
theorem folder_restore_cancel (a : Folder) (pp : Option Nat) (ha : a.original_parent = none)
    (hb : a.is_in_trash = false) (hp : a.parent = pp) :
    ({ a with parent := pp, original_parent := none, is_in_trash := false } : Folder) = a := by
  cases a
  simp_all

/-- Clearing an unset trash flag is the identity on folders. -/
theorem folder_flag_cancel (a : Folder) (hb : a.is_in_trash = false) :
    ({ a with is_in_trash := false } : Folder) = a := by
  cases a
  simp_all

/-- Witness for C7 at a concrete state: trashed note 20 and trashed folder 4
disappear from the Id Index and the trash mirror once the trash is
emptied. -/
theorem emptyTrash_spec_witness :
    (findNoteById (emptyTrash sampleTrashedManager) 20 = none ∧
      ∀ b, (b, 20) ∉ (emptyTrash sampleTrashedManager).disk_trash) ∧
    (findFolderById (emptyTrash sampleTrashedManager) 4 = none ∧
      ∀ b, (b, 4) ∉ (emptyTrash sampleTrashedManager).disk_trash) :=
  ⟨(emptyTrash_spec sampleTrashedManager 20 (by decide) (by decide)).1
      ⟨20, [80], [100], 5, 5, [], true, [], false, 1, 1, 1, some 2⟩ (by decide) rfl rfl,
   (emptyTrash_spec sampleTrashedManager 4 (by decide) (by decide)).2
      ⟨4, [67], some 1, true, some 2⟩ (by decide) rfl (by decide) rfl⟩

/-- C6: non-permanently deleting an item and then restoring it, while its
original parent was not purged in between, reproduces exactly the original
note and folder arenas: the same parent-child membership and the same
relative positions (arena order), hence the same re-derivable paths. -/
theorem trash_restore_roundtrip (m : Manager) (item_id : Nat) :
    (∀ n, m.notes.Pairwise (fun a b => a.id ≠ b.id) →
       findNoteById m item_id = some n →
       n.is_in_trash = false → n.original_parent = none →
       (findFolderById m n.parent).isSome = true →
       (restoreItem (deleteNote m item_id false).2 item_id true).2.notes = m.notes ∧
       (restoreItem (deleteNote m item_id false).2 item_id true).2.folders = m.folders) ∧
    (∀ f p, m.folders.Pairwise (fun a b => a.id ≠ b.id) →
       findFolderById m item_id = some f →
       f.is_in_trash = false → f.original_parent = none →
       f.parent = some p → (findFolderById m p).isSome = true →
       item_id ≠ m.root_id → item_id ≠ m.trash_id →
       (∀ x ∈ m.folders, reaches m item_id x.id = true → x.is_in_trash = false) →
       (∀ x ∈ m.notes, reaches m item_id x.parent = true → x.is_in_trash = false) →
       (restoreItem (deleteFolder m item_id false).2 item_id false).2.folders = m.folders ∧
       (restoreItem (deleteFolder m item_id false).2 item_id false).2.notes = m.notes) := by
  constructor
  · intro n hP hf hto horig hp
    unfold findNoteById at hf
    have hid : n.id = item_id := (findNoteL_spec _ _ _ hf).2
    have hmem : n ∈ m.notes := (findNoteL_spec _ _ _ hf).1
    have hgid : ∀ x : Note, ((fun x : Note => if x.id = item_id then
        { x with is_in_trash := true, original_parent := some x.parent, parent := m.trash_id }
        else x) x).id = x.id := by
      intro x
      by_cases hx : x.id = item_id <;> simp [hx]
    have h1n : (deleteNote m item_id false).2.notes
        = m.notes.map (fun x : Note => if x.id = item_id then
            { x with is_in_trash := true, original_parent := some x.parent, parent := m.trash_id }
          else x) := by
      unfold deleteNote
      rw [hf]
      rfl
    have h1fo : (deleteNote m item_id false).2.folders = m.folders := by
      unfold deleteNote
      rw [hf]
      rfl
    have hfind1 : findNoteL (deleteNote m item_id false).2.notes item_id
        = some { n with is_in_trash := true, original_parent := some n.parent,
                        parent := m.trash_id } := by
      rw [h1n, findNoteL_map _ _ _ hgid, hf]
      simp [hid]
    obtain ⟨q, hq⟩ := Option.isSome_iff_exists.mp hp
    unfold findFolderById at hq
    have hq1 : findFolderL (deleteNote m item_id false).2.folders n.parent = some q := by
      rw [h1fo]
      exact hq
    have hm2n : (restoreItem (deleteNote m item_id false).2 item_id true).2.notes
        = ((deleteNote m item_id false).2.notes).map (fun x : Note =>
            if x.id = item_id then
              { x with parent := n.parent, original_parent := none, is_in_trash := false }
            else x) := by
      unfold restoreItem
      rw [hfind1]
      dsimp only
      rw [hq1]
      rfl
    have hm2f : (restoreItem (deleteNote m item_id false).2 item_id true).2.folders
        = (deleteNote m item_id false).2.folders := by
      unfold restoreItem
      rw [hfind1]
      dsimp only
      rw [hq1]
      rfl
    constructor
    · rw [hm2n, h1n, List.map_map]
      have hpt : ∀ x ∈ m.notes,
          ((fun x : Note =>
            if x.id = item_id then
              { x with parent := n.parent, original_parent := none, is_in_trash := false }
            else x) ∘
           (fun x : Note =>
            if x.id = item_id then
              { x with is_in_trash := true, original_parent := some x.parent,
                       parent := m.trash_id }
            else x)) x = x := by
        intro x hx
        simp only [Function.comp_apply]
        by_cases hxi : x.id = item_id
        · have hxn : x = n :=
            pairwise_key_inj (fun y : Note => y.id) m.notes hP x hx n hmem
              (by simp only []; rw [hxi, hid])
          subst hxn
          rw [if_pos hxi]
          have hlit : ({ x with is_in_trash := true, original_parent := some x.parent, parent := m.trash_id } : Note).id = item_id := hxi
          rw [if_pos hlit]
          exact note_restore_cancel x x.parent horig hto rfl
        · rw [if_neg hxi, if_neg hxi]
      rw [List.map_congr_left hpt]
      exact List.map_id' _
    · rw [hm2f, h1fo]
  · intro f p hP hf hto horig hpar hp hroot htrash hDF hDN
    unfold findFolderById at hf
    have hid : f.id = item_id := (findFolderL_spec _ _ _ hf).2
    have hmem : f ∈ m.folders := (findFolderL_spec _ _ _ hf).1
    have hnr : ¬(item_id = m.root_id ∨ item_id = m.trash_id) := by
      rintro (h | h)
      · exact hroot h
      · exact htrash h
    have hgid : ∀ x : Folder, ((fun x : Folder => if x.id = item_id then
        { x with parent := some m.trash_id, original_parent := x.parent, is_in_trash := true }
        else if reaches m item_id x.id then { x with is_in_trash := true }
        else x) x).id = x.id := by
      intro x
      by_cases h1 : x.id = item_id
      · simp [h1]
      · simp only [h1, if_false]
        split <;> rfl
    have hgpar : ∀ x : Folder, x.id ≠ item_id → ((fun x : Folder => if x.id = item_id then
        { x with parent := some m.trash_id, original_parent := x.parent, is_in_trash := true }
        else if reaches m item_id x.id then { x with is_in_trash := true }
        else x) x).parent = x.parent := by
      intro x h1
      simp only [h1, if_false]
      split <;> rfl
    have h1fo : (deleteFolder m item_id false).2.folders
        = m.folders.map (fun x : Folder => if x.id = item_id then
            { x with parent := some m.trash_id, original_parent := x.parent, is_in_trash := true }
          else if reaches m item_id x.id then { x with is_in_trash := true }
          else x) := by
      unfold deleteFolder
      rw [if_neg hnr, hf]
      rfl
    have h1n : (deleteFolder m item_id false).2.notes
        = m.notes.map (fun x : Note =>
            if reaches m item_id x.parent then { x with is_in_trash := true } else x) := by
      unfold deleteFolder
      rw [if_neg hnr, hf]
      rfl
    have hre : ∀ z, reaches (deleteFolder m item_id false).2 item_id z
        = reaches m item_id z :=
      reaches_eq_of_map m _ _ item_id h1fo hgid hgpar
    have hfind1 : findFolderL (deleteFolder m item_id false).2.folders item_id
        = some { f with parent := some m.trash_id, original_parent := f.parent,
                        is_in_trash := true } := by
      rw [h1fo, findFolderL_map _ _ _ hgid, hf]
      simp [hid]
    obtain ⟨q, hq⟩ := Option.isSome_iff_exists.mp hp
    unfold findFolderById at hq
    have hq1 : ∃ q', findFolderL (deleteFolder m item_id false).2.folders p = some q' := by
      rw [h1fo, findFolderL_map _ _ _ hgid, hq]
      exact ⟨_, rfl⟩
    obtain ⟨q', hq1⟩ := hq1
    have hm2f : (restoreItem (deleteFolder m item_id false).2 item_id false).2.folders
        = ((deleteFolder m item_id false).2.folders).map (fun x : Folder =>
            if x.id = item_id then
              { x with parent := some p, original_parent := none, is_in_trash := false }
            else if reaches (deleteFolder m item_id false).2 item_id x.id then
              { x with is_in_trash := false }
            else x) := by
      unfold restoreItem
      simp only [Bool.false_eq_true, if_false]
      rw [hfind1]
      dsimp only
      rw [hpar]
      dsimp only
      rw [hq1]
      rfl
    have hm2n : (restoreItem (deleteFolder m item_id false).2 item_id false).2.notes
        = ((deleteFolder m item_id false).2.notes).map (fun x : Note =>
            if reaches (deleteFolder m item_id false).2 item_id x.parent then
              { x with is_in_trash := false }
            else x) := by
      unfold restoreItem
      simp only [Bool.false_eq_true, if_false]
      rw [hfind1]
      dsimp only
      rw [hpar]
      dsimp only
      rw [hq1]
      rfl
    constructor
    · rw [hm2f, h1fo, List.map_map]
      have hpt : ∀ x ∈ m.folders,
          ((fun x : Folder =>
            if x.id = item_id then
              { x with parent := some p, original_parent := none, is_in_trash := false }
            else if reaches (deleteFolder m item_id false).2 item_id x.id then
              { x with is_in_trash := false }
            else x) ∘
           (fun x : Folder =>
            if x.id = item_id then
              { x with parent := some m.trash_id, original_parent := x.parent,
                       is_in_trash := true }
            else if reaches m item_id x.id then { x with is_in_trash := true }
            else x)) x = x := by
        intro x hx
        simp only [Function.comp_apply]
        by_cases hxi : x.id = item_id
        · have hxf : x = f :=
            pairwise_key_inj (fun y : Folder => y.id) m.folders hP x hx f hmem
              (by simp only []; rw [hxi, hid])
          subst hxf
          rw [if_pos hxi]
          have hlit : ({ x with parent := some m.trash_id, original_parent := x.parent, is_in_trash := true } : Folder).id = item_id := hxi
          rw [if_pos hlit]
          exact folder_restore_cancel x (some p) horig hto hpar
        · rw [if_neg hxi]
          by_cases hrx : reaches m item_id x.id
          · rw [if_pos hrx]
            have hlit2 : ¬(({ x with is_in_trash := true } : Folder).id = item_id) := hxi
            rw [if_neg hlit2]
            have hcond : reaches (deleteFolder m item_id false).2 item_id
                ({ x with is_in_trash := true } : Folder).id = true := by
              show reaches (deleteFolder m item_id false).2 item_id x.id = true
              rw [hre]
              exact hrx
            rw [if_pos hcond]
            exact folder_flag_cancel x (hDF x hx hrx)
          · rw [if_neg hrx]
            rw [if_neg hxi]
            have hcond : ¬(reaches (deleteFolder m item_id false).2 item_id x.id = true) := by
              rw [hre]
              exact fun hc => hrx hc
            rw [if_neg hcond]
      rw [List.map_congr_left hpt]
      exact List.map_id' _
    · rw [hm2n, h1n, List.map_map]
      have hpt : ∀ x ∈ m.notes,
          ((fun x : Note =>
            if reaches (deleteFolder m item_id false).2 item_id x.parent then
              { x with is_in_trash := false }
            else x) ∘
           (fun x : Note =>
            if reaches m item_id x.parent then { x with is_in_trash := true } else x)) x
          = x := by
        intro x hx
        simp only [Function.comp_apply]
        by_cases hrx : reaches m item_id x.parent
        · rw [if_pos hrx]
          have hcond : reaches (deleteFolder m item_id false).2 item_id
              ({ x with is_in_trash := true } : Note).parent = true := by
            show reaches (deleteFolder m item_id false).2 item_id x.parent = true
            rw [hre]
            exact hrx
          rw [if_pos hcond]
          exact note_flag_cancel x (hDN x hx hrx)
        · rw [if_neg hrx]
          have hcond : ¬(reaches (deleteFolder m item_id false).2 item_id x.parent = true) := by
            rw [hre]
            exact fun hc => hrx hc
          rw [if_neg hcond]
      rw [List.map_congr_left hpt]
      exact List.map_id' _

/-- Witness for C6 at a concrete state: note 10 and folder 2 of the sample
manager survive a trash-then-restore round trip with both arenas exactly
restored. -/
theorem trash_restore_roundtrip_witness :
    ((restoreItem (deleteNote sampleManager 10 false).2 10 true).2.notes
        = sampleManager.notes ∧
     (restoreItem (deleteNote sampleManager 10 false).2 10 true).2.folders
        = sampleManager.folders) ∧
    ((restoreItem (deleteFolder sampleManager 2 false).2 2 false).2.folders
        = sampleManager.folders ∧
     (restoreItem (deleteFolder sampleManager 2 false).2 2 false).2.notes
        = sampleManager.notes) :=
  ⟨(trash_restore_roundtrip sampleManager 10).1 sampleNote (by decide) rfl rfl rfl rfl,
   (trash_restore_roundtrip sampleManager 2).2 ⟨2, [65], some 0, false, none⟩ 0
     (by decide) rfl rfl rfl rfl rfl (by decide) (by decide) (by decide) (by decide)⟩

/-- Tag resolution never touches the note or folder counters and only ever
advances the tag counter. -/
theorem resolveTags_counters :
    ∀ (names : List Str) (m : Manager),
      (resolveTags m names).1.next_note_id = m.next_note_id ∧
      (resolveTags m names).1.next_folder_id = m.next_folder_id ∧
      m.next_tag_id ≤ (resolveTags m names).1.next_tag_id := by
  intro names
  induction names with
  | nil => intro m; exact ⟨rfl, rfl, Nat.le_refl _⟩
  | cons name rest ih =>
    intro m
    have hr : (resolveOrCreateTag m name).1.next_note_id = m.next_note_id ∧
        (resolveOrCreateTag m name).1.next_folder_id = m.next_folder_id ∧
        m.next_tag_id ≤ (resolveOrCreateTag m name).1.next_tag_id := by
      unfold resolveOrCreateTag
      cases h : findTagByName m name <;> simp
    obtain ⟨a1, a2, a3⟩ := hr
    obtain ⟨b1, b2, b3⟩ := ih (resolveOrCreateTag m name).1
    unfold resolveTags
    dsimp only
    exact ⟨by rw [b1, a1], by rw [b2, a2], Nat.le_trans a3 b3⟩

/-- Per-operation behavior of the three id counters: each counter is
non-decreasing, and only the matching create operations may advance it
(spec.md section 4.1: strictly increasing independent counters per entity
kind, no reuse). -/
theorem step_counters (m : Manager) (op : Op) :
    m.next_note_id ≤ (step m op).next_note_id ∧
    m.next_folder_id ≤ (step m op).next_folder_id ∧
    m.next_tag_id ≤ (step m op).next_tag_id ∧
    (isCreateNoteOp op = false → (step m op).next_note_id = m.next_note_id) ∧
    (isCreateFolderOp op = false → (step m op).next_folder_id = m.next_folder_id) ∧
    (isTagCreatingOp op = false → (step m op).next_tag_id = m.next_tag_id) := by
  cases op with
  | createFolder p name =>
    simp only [step]
    unfold createFolder
    repeat' split
    all_goals simp [isCreateNoteOp, isCreateFolderOp, isTagCreatingOp, Nat.le_succ]
  | createNote p t c tns now =>
    obtain ⟨a1, a2, a3⟩ := resolveTags_counters tns m
    simp only [step]
    unfold createNote
    dsimp only
    simp [a1, a2, a3, isCreateNoteOp, isCreateFolderOp, isTagCreatingOp, Nat.le_succ]
  | createTag name =>
    simp only [step]
    unfold createTag
    repeat' split
    all_goals simp [isCreateNoteOp, isCreateFolderOp, isTagCreatingOp, Nat.le_succ]
  | moveFolder f pid =>
    simp only [step]
    unfold moveFolder
    repeat' split
    all_goals simp [isCreateNoteOp, isCreateFolderOp, isTagCreatingOp]
  | moveNote n f =>
    simp only [step]
    unfold moveNote
    repeat' split
    all_goals simp [isCreateNoteOp, isCreateFolderOp, isTagCreatingOp]
  | renameFolder f nm =>
    simp only [step]
    unfold renameFolder
    repeat' split
    all_goals simp [isCreateNoteOp, isCreateFolderOp, isTagCreatingOp]
  | renameNote n t now =>
    simp only [step]
    unfold renameNote
    repeat' split
    all_goals simp [isCreateNoteOp, isCreateFolderOp, isTagCreatingOp]
  | editNote n t c now =>
    simp only [step]
    unfold editNote
    repeat' split
    all_goals simp [isCreateNoteOp, isCreateFolderOp, isTagCreatingOp]
  | revertNote n k now =>
    simp only [step]
    unfold revertNoteToVersion
    repeat' split
    all_goals simp [isCreateNoteOp, isCreateFolderOp, isTagCreatingOp]
  | deleteNote n p =>
    simp only [step]
    unfold deleteNote
    repeat' split
    all_goals simp [isCreateNoteOp, isCreateFolderOp, isTagCreatingOp]
  | deleteFolder f p =>
    simp only [step]
    unfold deleteFolder
    repeat' split
    all_goals simp [isCreateNoteOp, isCreateFolderOp, isTagCreatingOp]
  | restoreItem i b =>
    simp only [step]
    unfold restoreItem
    repeat' split
    all_goals simp [isCreateNoteOp, isCreateFolderOp, isTagCreatingOp]
  | emptyTrash =>
    simp only [step]
    unfold emptyTrash
    simp [isCreateNoteOp, isCreateFolderOp, isTagCreatingOp]
  | addTagToNote n tn =>
    simp only [step]
    unfold addTagToNote resolveOrCreateTag
    repeat' split
    all_goals simp [isCreateNoteOp, isCreateFolderOp, isTagCreatingOp, Nat.le_succ]
  | removeTagFromNote n tn =>
    simp only [step]
    unfold removeTagFromNote
    repeat' split
    all_goals simp [isCreateNoteOp, isCreateFolderOp, isTagCreatingOp]
  | deleteTag tn =>
    simp only [step]
    unfold deleteTag
    repeat' split
    all_goals simp [isCreateNoteOp, isCreateFolderOp, isTagCreatingOp]
  | encryptNote n k =>
    simp only [step]
    unfold encryptNoteOp
    simp [isCreateNoteOp, isCreateFolderOp, isTagCreatingOp]
  | decryptNote n k =>
    simp only [step]
    unfold decryptNoteOp
    simp [isCreateNoteOp, isCreateFolderOp, isTagCreatingOp]

/-- The three counters never decrease along a run. -/
theorem run_counters_mono :
    ∀ (ops : List Op) (m : Manager),
      m.next_note_id ≤ (run m ops).next_note_id ∧
      m.next_folder_id ≤ (run m ops).next_folder_id ∧
      m.next_tag_id ≤ (run m ops).next_tag_id := by
  intro ops
  induction ops with
  | nil => intro m; exact ⟨Nat.le_refl _, Nat.le_refl _, Nat.le_refl _⟩
  | cons op rest ih =>
    intro m
    obtain ⟨a1, a2, a3, _⟩ := step_counters m op
    obtain ⟨b1, b2, b3⟩ := ih (step m op)
    exact ⟨Nat.le_trans a1 b1, Nat.le_trans a2 b2, Nat.le_trans a3 b3⟩

/-- A non-decreasing counter observer makes the trace of assigned id blocks
one contiguous ascending range. -/
theorem ctrTrace_eq (f : Manager → Nat)
    (hstep : ∀ (m : Manager) (op : Op), f m ≤ f (step m op))
    (hrun : ∀ (ops : List Op) (m : Manager), f m ≤ f (run m ops)) :
    ∀ (ops : List Op) (m : Manager),
      ctrTrace f m ops = List.range' (f m) (f (run m ops) - f m) := by
  intro ops
  induction ops with
  | nil =>
    intro m
    unfold ctrTrace run
    simp
  | cons op rest ih =>
    intro m
    unfold ctrTrace run
    rw [ih (step m op)]
    have h1 : f m ≤ f (step m op) := hstep m op
    have h2 : f (step m op) ≤ f (run (step m op) rest) := hrun rest (step m op)
    have happ := List.range'_append (f m) (f (step m op) - f m)
      (f (run (step m op) rest) - f (step m op)) 1
    have e1 : f m + 1 * (f (step m op) - f m) = f (step m op) := by omega
    rw [e1] at happ
    rw [happ]
    congr 1
    omega

/-- C2: along every operation sequence the ids assigned within one entity
kind (the contiguous counter blocks handed out by each operation, spec.md
section 4.1) form a strictly increasing list, so no id is ever assigned
twice, deletions in between notwithstanding; the three counters are
independent: an operation that does not create entities of a kind leaves
that kind's counter untouched. -/
theorem idAllocator_spec :
    (∀ (m : Manager) (ops : List Op),
       List.Pairwise (· < ·) (ctrTrace (fun s => s.next_note_id) m ops) ∧
       List.Pairwise (· < ·) (ctrTrace (fun s => s.next_folder_id) m ops) ∧
       List.Pairwise (· < ·) (ctrTrace (fun s => s.next_tag_id) m ops)) ∧
    (∀ (m : Manager) (op : Op),
       (isCreateNoteOp op = false → (step m op).next_note_id = m.next_note_id) ∧
       (isCreateFolderOp op = false → (step m op).next_folder_id = m.next_folder_id) ∧
       (isTagCreatingOp op = false → (step m op).next_tag_id = m.next_tag_id)) := by
  constructor
  · intro m ops
    refine ⟨?_, ?_, ?_⟩
    · rw [ctrTrace_eq (fun s => s.next_note_id)
        (fun m op => (step_counters m op).1)
        (fun ops m => (run_counters_mono ops m).1) ops m]
      exact List.pairwise_lt_range' _ _
    · rw [ctrTrace_eq (fun s => s.next_folder_id)
        (fun m op => (step_counters m op).2.1)
        (fun ops m => (run_counters_mono ops m).2.1) ops m]
      exact List.pairwise_lt_range' _ _
    · rw [ctrTrace_eq (fun s => s.next_tag_id)
        (fun m op => (step_counters m op).2.2.1)
        (fun ops m => (run_counters_mono ops m).2.2) ops m]
      exact List.pairwise_lt_range' _ _
  · intro m op
    obtain ⟨_, _, _, h4, h5, h6⟩ := step_counters m op
    exact ⟨h4, h5, h6⟩

/-- Witness for C2 at a concrete state: an emptyTrash operation leaves all
three counters of the fresh manager untouched. -/
theorem idAllocator_spec_witness :
    (step initManager Op.emptyTrash).next_note_id = initManager.next_note_id ∧
    (step initManager Op.emptyTrash).next_folder_id = initManager.next_folder_id ∧
    (step initManager Op.emptyTrash).next_tag_id = initManager.next_tag_id :=
  ⟨(idAllocator_spec.2 initManager Op.emptyTrash).1 rfl,
   (idAllocator_spec.2 initManager Op.emptyTrash).2.1 rfl,
   (idAllocator_spec.2 initManager Op.emptyTrash).2.2 rfl⟩

/-- Liveness of tag references is preserved by any note rewrite that only
shrinks or keeps each note's tag set. -/
theorem refsLive_map {T : List Tag} {N : List Note} (g : Note → Note)
    (hg : ∀ x, ∀ i ∈ (g x).tags, i ∈ x.tags) :
    TagRefsLive T N → TagRefsLive T (N.map g) := by
  intro h n hn i hi
  obtain ⟨x, hx, rfl⟩ := List.mem_map.mp hn
  exact h x hx i (hg x i hi)

/-- Liveness of tag references is preserved by dropping notes. -/
theorem refsLive_filter {T : List Tag} {N : List Note} (p : Note → Bool) :
    TagRefsLive T N → TagRefsLive T (N.filter p) := by
  intro h n hn i hi
  exact h n (List.mem_filter.mp hn).1 i hi

/-- Liveness of tag references is preserved by growing the tag table. -/
theorem refsLive_mono {T T' : List Tag} {N : List Note}
    (hT : ∀ t ∈ T, t ∈ T') : TagRefsLive T N → TagRefsLive T' N := by
  intro h n hn i hi
  obtain ⟨t, ht, hti⟩ := h n hn i hi
  exact ⟨t, hT t ht, hti⟩

/-- Appending a tag whose name is absent keeps the table names unique. -/
theorem tagNamesUnique_append (T : List Tag) (name : Str) (i : Nat)
    (hu : TagNamesUnique T)
    (habs : T.find? (fun t => t.name == name) = none) :
    TagNamesUnique (T ++ [⟨i, name⟩]) := by
  unfold TagNamesUnique at hu ⊢
  rw [List.pairwise_append]
  refine ⟨hu, List.pairwise_singleton _ _, ?_⟩
  intro a ha b hb
  rw [List.find?_eq_none] at habs
  have hne := habs a ha
  have hb' : b = (⟨i, name⟩ : Tag) := by simpa using hb
  subst hb'
  intro hcon
  exact hne (by simp [hcon])

/-- The resolve-or-create step keeps all old tags, keeps names unique,
returns the id of a live tag, and never touches the notes. -/
theorem resolveOrCreateTag_props (m : Manager) (name : Str) :
    (∀ t ∈ m.all_tags, t ∈ (resolveOrCreateTag m name).1.all_tags) ∧
    (TagNamesUnique m.all_tags → TagNamesUnique (resolveOrCreateTag m name).1.all_tags) ∧
    (∃ t ∈ (resolveOrCreateTag m name).1.all_tags, t.id = (resolveOrCreateTag m name).2) ∧
    (resolveOrCreateTag m name).1.notes = m.notes := by
  unfold resolveOrCreateTag
  cases hf : findTagByName m name with
  | some t =>
    refine ⟨fun t' ht' => ht', fun hu => hu, ⟨t, ?_, rfl⟩, rfl⟩
    unfold findTagByName at hf
    exact List.mem_of_find?_eq_some hf
  | none =>
    unfold findTagByName at hf
    refine ⟨fun t' ht' => List.mem_append_left _ ht',
            fun hu => tagNamesUnique_append m.all_tags name m.next_tag_id hu hf,
            ⟨⟨m.next_tag_id, name⟩, List.mem_append_right _ (by simp), rfl⟩, rfl⟩

/-- Sequential tag resolution keeps all old tags, keeps names unique,
returns ids of live tags, and never touches the notes. -/
theorem resolveTags_props :
    ∀ (names : List Str) (m : Manager),
      (∀ t ∈ m.all_tags, t ∈ (resolveTags m names).1.all_tags) ∧
      (TagNamesUnique m.all_tags → TagNamesUnique (resolveTags m names).1.all_tags) ∧
      (∀ i ∈ (resolveTags m names).2, ∃ t ∈ (resolveTags m names).1.all_tags, t.id = i) ∧
      (resolveTags m names).1.notes = m.notes := by
  intro names
  induction names with
  | nil =>
    intro m
    exact ⟨fun t ht => ht, fun hu => hu, by simp [resolveTags], rfl⟩
  | cons name rest ih =>
    intro m
    obtain ⟨r1, r2, r3, r4⟩ := resolveOrCreateTag_props m name
    obtain ⟨s1, s2, s3, s4⟩ := ih (resolveOrCreateTag m name).1
    unfold resolveTags
    dsimp only
    refine ⟨fun t ht => s1 t (r1 t ht), fun hu => s2 (r2 hu), ?_, by rw [s4, r4]⟩
    intro i hi
    rcases List.mem_cons.mp hi with rfl | hi'
    · obtain ⟨t, ht, hti⟩ := r3
      exact ⟨t, s1 t ht, hti⟩
    · exact s3 i hi'

/-- Every operation preserves the tag-subsystem invariant: unique tag
names and no dangling tag references. -/
theorem tagWF_step : ∀ (m : Manager) (op : Op), TagWF m → TagWF (step m op) := by
  intro m op h
  cases op with
  | createFolder p name =>
    simp only [step]
    unfold createFolder
    split <;> exact h
  | createNote p t c tns now =>
    simp only [step]
    unfold createNote
    dsimp only
    obtain ⟨s1, s2, s3, s4⟩ := resolveTags_props tns m
    refine ⟨s2 h.1, ?_⟩
    intro n' hn' i hi
    rw [s4] at hn'
    rcases List.mem_append.mp hn' with hn2 | hn2
    · obtain ⟨tt, htt, htti⟩ := h.2 n' hn2 i hi
      exact ⟨tt, s1 tt htt, htti⟩
    · rw [List.mem_singleton] at hn2
      subst hn2
      exact s3 i hi
  | createTag name =>
    simp only [step]
    unfold createTag
    cases hf : findTagByName m name with
    | some t => exact h
    | none =>
      unfold findTagByName at hf
      exact ⟨tagNamesUnique_append m.all_tags name m.next_tag_id h.1 hf,
             refsLive_mono (fun t ht => List.mem_append_left _ ht) h.2⟩
  | moveFolder f pid =>
    simp only [step]
    unfold moveFolder
    repeat' split
    all_goals exact h
  | moveNote nid fid =>
    simp only [step]
    unfold moveNote
    repeat' split
    all_goals first
      | exact h
      | exact ⟨h.1, refsLive_map _ (fun x i hi => by
          split at hi <;> simp_all) h.2⟩
  | renameFolder f nm =>
    simp only [step]
    unfold renameFolder
    repeat' split
    all_goals exact h
  | renameNote nid t now =>
    simp only [step]
    unfold renameNote
    repeat' split
    all_goals first
      | exact h
      | exact ⟨h.1, refsLive_map _ (fun x i hi => by
          split at hi <;> simp_all [Note.setTitle]) h.2⟩
  | editNote nid t c now =>
    simp only [step]
    unfold editNote
    repeat' split
    all_goals first
      | exact h
      | exact ⟨h.1, refsLive_map _ (fun x i hi => by
          split at hi <;> simp_all [Note.setTitle, Note.setContent]) h.2⟩
  | revertNote nid k now =>
    simp only [step]
    unfold revertNoteToVersion
    repeat' split
    all_goals first
      | exact h
      | exact ⟨h.1, refsLive_map _ (fun x i hi => by
          split at hi <;> simp_all) h.2⟩
  | deleteNote nid p =>
    simp only [step]
    unfold deleteNote
    repeat' split
    all_goals first
      | exact h
      | exact ⟨h.1, refsLive_filter _ h.2⟩
      | exact ⟨h.1, refsLive_map _ (fun x i hi => by
          split at hi <;> simp_all) h.2⟩
  | deleteFolder fid p =>
    simp only [step]
    unfold deleteFolder
    repeat' split
    all_goals first
      | exact h
      | exact ⟨h.1, refsLive_filter _ h.2⟩
      | exact ⟨h.1, refsLive_map _ (fun x i hi => by
          split at hi <;> simp_all) h.2⟩
  | restoreItem iid b =>
    simp only [step]
    unfold restoreItem
    repeat' split
    all_goals first
      | exact h
      | exact ⟨h.1, refsLive_map _ (fun x i hi => by
          split at hi <;> simp_all) h.2⟩
  | emptyTrash =>
    simp only [step]
    unfold emptyTrash
    exact ⟨h.1, refsLive_filter _ h.2⟩
  | addTagToNote nid tname =>
    simp only [step]
    unfold addTagToNote
    cases hf : findNoteL m.notes nid with
    | none => exact h
    | some x0 =>
      dsimp only
      obtain ⟨r1, r2, r3, r4⟩ := resolveOrCreateTag_props m tname
      refine ⟨r2 h.1, ?_⟩
      rw [r4]
      intro n' hn' i hi
      obtain ⟨x, hx, rfl⟩ := List.mem_map.mp hn'
      by_cases hxi : x.id = nid
      · simp only [hxi, if_true] at hi
        by_cases hc : x.tags.contains (resolveOrCreateTag m tname).2
        · simp only [hc, if_true] at hi
          obtain ⟨tt, htt, htti⟩ := h.2 x hx i hi
          exact ⟨tt, r1 tt htt, htti⟩
        · simp only [hc, if_false] at hi
          rcases List.mem_append.mp hi with hi2 | hi2
          · obtain ⟨tt, htt, htti⟩ := h.2 x hx i hi2
            exact ⟨tt, r1 tt htt, htti⟩
          · rw [List.mem_singleton] at hi2
            subst hi2
            exact r3
      · simp only [hxi, if_false] at hi
        obtain ⟨tt, htt, htti⟩ := h.2 x hx i hi
        exact ⟨tt, r1 tt htt, htti⟩
  | removeTagFromNote nid tname =>
    simp only [step]
    unfold removeTagFromNote
    repeat' split
    all_goals first
      | exact h
      | exact ⟨h.1, refsLive_map _ (fun x i hi => by
          split at hi <;> simp_all) h.2⟩
  | deleteTag tname =>
    simp only [step]
    unfold deleteTag
    cases hf : findTagByName m tname with
    | none => exact h
    | some t0 =>
      dsimp only
      refine ⟨h.1.sublist (List.filter_sublist _), ?_⟩
      intro n' hn' i hi
      obtain ⟨x, hx, rfl⟩ := List.mem_map.mp hn'
      have hi' := List.mem_filter.mp hi
      obtain ⟨tt, htt, htti⟩ := h.2 x hx i hi'.1
      refine ⟨tt, ?_, htti⟩
      rw [List.mem_filter]
      refine ⟨htt, ?_⟩
      have hnn : idHasName m i tname = false := by simpa using hi'.2
      suffices hts : ¬(tt.name = tname) by simpa using hts
      intro heq
      have : idHasName m i tname = true := by
        unfold idHasName
        rw [List.any_eq_true]
        exact ⟨tt, htt, by simp [htti, heq]⟩
      rw [hnn] at this
      cases this
  | encryptNote nid k =>
    simp only [step]
    unfold encryptNoteOp
    exact ⟨h.1, refsLive_map _ (fun x i hi => by
      split at hi <;> simp_all [Note.encrypt]) h.2⟩
  | decryptNote nid k =>
    simp only [step]
    unfold decryptNoteOp
    exact ⟨h.1, refsLive_map _ (fun x i hi => by
      split at hi <;> simp_all [Note.decrypt]) h.2⟩

/-- C9: tag names are unique in the global tag table and every note's tag
references point to live table entries: the invariant holds in the fresh
state, is preserved by every operation, and deleteTag purges the deleted
name from every note's references within that same operation, so no
dangling tag reference ever exists. -/
theorem tag_invariant_spec :
    TagWF initManager ∧
    (∀ (m : Manager) (op : Op), TagWF m → TagWF (step m op)) ∧
    (∀ (m : Manager) (name : Str) (n : Note),
       n ∈ (deleteTag m name).2.notes → ∀ i ∈ n.tags, idHasName m i name = false) := by
  refine ⟨by unfold TagWF TagNamesUnique TagRefsLive; decide, tagWF_step, ?_⟩
  intro m name n hn i hi
  unfold deleteTag at hn
  cases hf : findTagByName m name with
  | none =>
    rw [hf] at hn
    unfold findTagByName at hf
    rw [List.find?_eq_none] at hf
    have hne : ¬(idHasName m i name = true) := by
      intro hc
      unfold idHasName at hc
      rw [List.any_eq_true] at hc
      obtain ⟨t, ht, hti⟩ := hc
      have hnot := hf t ht
      simp at hti hnot
      exact hnot hti.2
    exact Bool.eq_false_iff.mpr hne
  | some t0 =>
    rw [hf] at hn
    dsimp only at hn
    obtain ⟨x, hx, rfl⟩ := List.mem_map.mp hn
    have := (List.mem_filter.mp hi).2
    simpa using this

/-- Witness for C9 at a concrete state: deleting the only tag of the sample
tag manager preserves the invariant, and the surviving note carries no
reference resolving to the deleted name. -/
theorem tag_invariant_spec_witness :
    TagWF (step sampleTagManager (Op.deleteTag [85])) ∧
    (∀ i ∈ (⟨30, [80], [100], 5, 5, [], false, [], false, 1, 1, 2, none⟩ : Note).tags,
       idHasName sampleTagManager i [85] = false) :=
  ⟨tag_invariant_spec.2.1 sampleTagManager (Op.deleteTag [85])
     (by unfold TagWF TagNamesUnique TagRefsLive; decide),
   tag_invariant_spec.2.2 sampleTagManager [85]
     ⟨30, [80], [100], 5, 5, [], false, [], false, 1, 1, 2, none⟩ (by decide)⟩

end NotesApp
